import Mathlib

/-!
Shallow embedding of the pgkv key-value store (src/store.rs, src/config.rs,
src/types.rs) for checking its natural-language specification.

The PostgreSQL table backing the store is modelled as a list of rows; every
SQL statement the source issues is translated into a pure function over that
list.  `NOW()` / `SystemTime::now()` is an explicit `now : Int` parameter.
Byte strings (Rust `Vec<u8>` / SQL `BYTEA`) are `List Nat`.  Operations that
touch the database return the statement's result together with the table
after the call; fallible paths return `Except Error`.  The backend itself is
deterministic, except for the best-effort cleanup delete inside `get` /
`get_entry` (source: `let _ = self.delete_internal(key)`), whose success is
an explicit `delOk : Bool` parameter so that "deletion failures are ignored"
is expressible.
-/

namespace PgKv

/-- Raw bytes (Rust `Vec<u8>`, SQL `BYTEA`): one `Nat` per byte. -/
abbrev Bytes := List Nat

/-- One row of the backing table (schema from `create_table_internal`):
`key TEXT PRIMARY KEY, value BYTEA NOT NULL, expires_at TIMESTAMPTZ NULL,
created_at TIMESTAMPTZ NOT NULL, updated_at TIMESTAMPTZ NOT NULL`. -/
structure Row where
  key : String
  value : Bytes
  expires_at : Option Int
  created_at : Int
  updated_at : Int
deriving Repr, DecidableEq

/-- The backing table: a list of rows. -/
abbrev Table := List Row

/-- `TtlCleanupStrategy` from src/config.rs. -/
inductive TtlCleanupStrategy where
  | OnRead
  | Manual
  | Disabled
deriving Repr, DecidableEq

/-- The slice of `Config` (src/config.rs) that the store operations read. -/
structure Config where
  ttl_cleanup_strategy : TtlCleanupStrategy
  max_key_length : Nat
  max_value_size : Nat
deriving Repr, DecidableEq

/-- `Config::ttl_enabled`: `self.ttl_cleanup_strategy != TtlCleanupStrategy::Disabled`. -/
def Config.ttl_enabled (c : Config) : Bool :=
  c.ttl_cleanup_strategy != TtlCleanupStrategy.Disabled

/-- `Config::cleanup_on_read`: `self.ttl_cleanup_strategy == TtlCleanupStrategy::OnRead`. -/
def Config.cleanup_on_read (c : Config) : Bool :=
  c.ttl_cleanup_strategy == TtlCleanupStrategy.OnRead

/-- The defaults from `impl Default for Config`:
strategy `OnRead`, `max_key_length = 1024`, `max_value_size = 100 * 1024 * 1024`. -/
def defaultConfig : Config :=
  { ttl_cleanup_strategy := TtlCleanupStrategy.OnRead
    max_key_length := 1024
    max_value_size := 100 * 1024 * 1024 }

/-- A config differing from the default only in the cleanup strategy. -/
def configWith (s : TtlCleanupStrategy) : Config :=
  { defaultConfig with ttl_cleanup_strategy := s }

/-- The error kinds from src/error.rs that the modelled operations produce. -/
inductive Error where
  | NotFound (key : String)
  | InvalidKey (reason : String)
  | InvalidValue (reason : String)
  | Query (message : String)
deriving Repr, DecidableEq

/-- Equality of `Except` results is decidable (needed so that concrete runs
of the operations can be settled by `decide`). -/
instance {ε α : Type} [DecidableEq ε] [DecidableEq α] :
    DecidableEq (Except ε α) := fun a b =>
  match a, b with
  | Except.error e₁, Except.error e₂ =>
    if h : e₁ = e₂ then Decidable.isTrue (congrArg Except.error h)
    else Decidable.isFalse (fun hc => h (by injection hc))
  | Except.error _, Except.ok _ => Decidable.isFalse (fun hc => Except.noConfusion hc)
  | Except.ok _, Except.error _ => Decidable.isFalse (fun hc => Except.noConfusion hc)
  | Except.ok a₁, Except.ok a₂ =>
    if h : a₁ = a₂ then Decidable.isTrue (congrArg Except.ok h)
    else Decidable.isFalse (fun hc => h (by injection hc))

/-- `KeyValue` from src/types.rs. -/
structure KeyValue where
  key : String
  value : Bytes
deriving Repr, DecidableEq

/-- `CasResult` from src/types.rs. -/
inductive CasResult where
  | Success
  | Mismatch (current : Option Bytes)
  | NotFound
deriving Repr, DecidableEq

/-- `ScanOptions` from src/types.rs.  The source's `prefix` field is named
`pfx` here because `prefix` is a reserved word in Lean. -/
structure ScanOptions where
  pfx : Option String := none
  limit : Option Nat := none
  offset : Option Nat := none
  include_expired : Bool := false
deriving Repr, DecidableEq

/-- The SQL liveness filter `(expires_at IS NULL OR expires_at > NOW())`
used verbatim by `exists`, `get_many`, `compare_and_swap`, `keys`, `scan`
and `count`. -/
def rowLive (r : Row) (now : Int) : Bool :=
  match r.expires_at with
  | none => true
  | some e => decide (now < e)

/-- `Entry::is_expired` (src/types.rs): `expires_at.map(|exp| exp < now).unwrap_or(false)`. -/
def Row.is_expired (r : Row) (now : Int) : Bool :=
  match r.expires_at with
  | none => false
  | some e => decide (e < now)

/-- `SELECT ... WHERE key = $1` against the primary key: the first row whose
key matches. -/
def findRow (t : Table) (key : String) : Option Row :=
  t.find? (fun r => r.key == key)

namespace Store

/-- `Store::validate_key` (src/store.rs): rejects the empty key and keys whose
byte length exceeds `max_key_length` (Rust `key.len()` is the UTF-8 byte
length). -/
def validate_key (c : Config) (key : String) : Except Error Unit :=
  if key.isEmpty then
    Except.error (Error.InvalidKey "key cannot be empty")
  else if key.utf8ByteSize > c.max_key_length then
    Except.error (Error.InvalidKey
      ("key length " ++ toString key.utf8ByteSize ++ " exceeds maximum "
        ++ toString c.max_key_length))
  else
    Except.ok ()

/-- `Store::validate_value` (src/store.rs): rejects values whose byte length
exceeds `max_value_size`. -/
def validate_value (c : Config) (value : Bytes) : Except Error Unit :=
  if value.length > c.max_value_size then
    Except.error (Error.InvalidValue
      ("value size " ++ toString value.length ++ " exceeds maximum "
        ++ toString c.max_value_size))
  else
    Except.ok ()

/-- `Store::delete_internal`: `DELETE FROM t WHERE key = $1`, returning
whether the affected-row count was positive, together with the table after
the delete. -/
def delete_internal (t : Table) (key : String) : Bool × Table :=
  let count := (t.filter (fun r => r.key == key)).length
  (decide (count > 0), t.filter (fun r => !(r.key == key)))

/-- `Store::get`: `SELECT value, expires_at WHERE key = $1`; when TTL is
enabled and the row's expiration is strictly in the past the row is treated
as a miss, and under the `OnRead` strategy a best-effort delete is attempted
(`delOk` says whether that delete succeeds; its outcome is discarded). -/
def get (c : Config) (t : Table) (now : Int) (delOk : Bool) (key : String) :
    Except Error (Option Bytes) × Table :=
  match validate_key c key with
  | Except.error e => (Except.error e, t)
  | Except.ok _ =>
    match findRow t key with
    | some r =>
      if c.ttl_enabled then
        match r.expires_at with
        | some exp =>
          if exp < now then
            if c.cleanup_on_read then
              if delOk then (Except.ok none, (delete_internal t key).2)
              else (Except.ok none, t)
            else (Except.ok none, t)
          else (Except.ok (some r.value), t)
        | none => (Except.ok (some r.value), t)
      else (Except.ok (some r.value), t)
    | none => (Except.ok none, t)

/-- `Store::get_entry`: like `get` but returning the full row; the expiry
check is `ttl_enabled && entry.is_expired()`. -/
def get_entry (c : Config) (t : Table) (now : Int) (delOk : Bool) (key : String) :
    Except Error (Option Row) × Table :=
  match validate_key c key with
  | Except.error e => (Except.error e, t)
  | Except.ok _ =>
    match findRow t key with
    | some r =>
      if c.ttl_enabled && r.is_expired now then
        if c.cleanup_on_read then
          if delOk then (Except.ok none, (delete_internal t key).2)
          else (Except.ok none, t)
        else (Except.ok none, t)
      else (Except.ok (some r), t)
    | none => (Except.ok none, t)

/-- `Store::exists`: `SELECT 1 WHERE key = $1 AND (expires_at IS NULL OR
expires_at > NOW())` — the liveness filter is in the SQL itself, independent
of the cleanup strategy.  (Named `existsKey` because `exists` is reserved in
Lean.) -/
def existsKey (c : Config) (t : Table) (now : Int) (key : String) :
    Except Error Bool × Table :=
  match validate_key c key with
  | Except.error e => (Except.error e, t)
  | Except.ok _ =>
    (Except.ok (t.find? (fun r => r.key == key && rowLive r now)).isSome, t)

/-- The `for key in keys { self.validate_key(key)?; }` loop of the batch
operations. -/
def validate_keys (c : Config) : List String → Except Error Unit
  | [] => Except.ok ()
  | k :: ks =>
    match validate_key c k with
    | Except.error e => Except.error e
    | Except.ok _ => validate_keys c ks

/-- `Store::get_many`: empty input short-circuits; otherwise every key is
validated, then one `SELECT key, value WHERE key = ANY($1) AND (expires_at
IS NULL OR expires_at > NOW())` — again with the liveness filter baked into
the SQL, and with no cleanup delete. -/
def get_many (c : Config) (t : Table) (now : Int) (keys : List String) :
    Except Error (List KeyValue) × Table :=
  if keys.isEmpty then (Except.ok [], t)
  else
    match validate_keys c keys with
    | Except.error e => (Except.error e, t)
    | Except.ok _ =>
      (Except.ok ((t.filter (fun r => keys.contains r.key && rowLive r now)).map
        (fun r => { key := r.key, value := r.value })), t)

end Store

/-- The upsert of `set_internal`: `INSERT ... VALUES ($1,$2,$3,NOW(),NOW())
ON CONFLICT (key) DO UPDATE SET value = EXCLUDED.value, expires_at =
EXCLUDED.expires_at, updated_at = NOW()`: on conflict `created_at` is kept,
everything else (including `expires_at`) is overwritten. -/
def upsertRow (t : Table) (now : Int) (key : String) (value : Bytes)
    (expires_at : Option Int) : Table :=
  if t.any (fun r => r.key == key) then
    t.map (fun r =>
      if r.key == key then
        { r with value := value, expires_at := expires_at, updated_at := now }
      else r)
  else
    t ++ [{ key := key, value := value, expires_at := expires_at,
            created_at := now, updated_at := now }]

/-- The upsert of `set_many`: its INSERT omits `expires_at` (so a fresh row
gets NULL) and its conflict branch updates only `value` and `updated_at`,
leaving `expires_at` unchanged. -/
def upsertKeepTtl (t : Table) (now : Int) (key : String) (value : Bytes) : Table :=
  if t.any (fun r => r.key == key) then
    t.map (fun r =>
      if r.key == key then { r with value := value, updated_at := now }
      else r)
  else
    t ++ [{ key := key, value := value, expires_at := none,
            created_at := now, updated_at := now }]

namespace Store

/-- `Store::set_internal`: validate key and value, then the upsert. -/
def set_internal (c : Config) (t : Table) (now : Int) (key : String)
    (value : Bytes) (expires_at : Option Int) : Except Error Unit × Table :=
  match validate_key c key with
  | Except.error e => (Except.error e, t)
  | Except.ok _ =>
    match validate_value c value with
    | Except.error e => (Except.error e, t)
    | Except.ok _ => (Except.ok (), upsertRow t now key value expires_at)

/-- `Store::set`: `set_internal(key, value, None)`. -/
def set (c : Config) (t : Table) (now : Int) (key : String) (value : Bytes) :
    Except Error Unit × Table :=
  set_internal c t now key value none

/-- `Store::set_at`: `set_internal(key, value, Some(expires_at))`. -/
def set_at (c : Config) (t : Table) (now : Int) (key : String) (value : Bytes)
    (expires_at : Int) : Except Error Unit × Table :=
  set_internal c t now key value (some expires_at)

/-- `Store::set_nx_internal`: `INSERT ... ON CONFLICT (key) DO NOTHING`,
returning whether a row was inserted.  The conflict is on the primary key
alone; expired rows still conflict. -/
def set_nx_internal (c : Config) (t : Table) (now : Int) (key : String)
    (value : Bytes) (expires_at : Option Int) : Except Error Bool × Table :=
  match validate_key c key with
  | Except.error e => (Except.error e, t)
  | Except.ok _ =>
    match validate_value c value with
    | Except.error e => (Except.error e, t)
    | Except.ok _ =>
      if t.any (fun r => r.key == key) then (Except.ok false, t)
      else
        (Except.ok true,
         t ++ [{ key := key, value := value, expires_at := expires_at,
                 created_at := now, updated_at := now }])

/-- `Store::set_nx`: `set_nx_internal(key, value, None)`. -/
def set_nx (c : Config) (t : Table) (now : Int) (key : String) (value : Bytes) :
    Except Error Bool × Table :=
  set_nx_internal c t now key value none

/-- The validation loop of `set_many`:
`for (key, value) in items { validate_key; validate_value; }`. -/
def validate_items (c : Config) : List (String × Bytes) → Except Error Unit
  | [] => Except.ok ()
  | (k, v) :: rest =>
    match validate_key c k with
    | Except.error e => Except.error e
    | Except.ok _ =>
      match validate_value c v with
      | Except.error e => Except.error e
      | Except.ok _ => validate_items c rest

/-- `Store::set_many`: empty input short-circuits; every pair is validated
before any backend statement; then all upserts run inside one
`BEGIN`/`COMMIT` (each upsert via `upsertKeepTtl`). -/
def set_many (c : Config) (t : Table) (now : Int)
    (items : List (String × Bytes)) : Except Error Unit × Table :=
  if items.isEmpty then (Except.ok (), t)
  else
    match validate_items c items with
    | Except.error e => (Except.error e, t)
    | Except.ok _ =>
      (Except.ok (), items.foldl (fun acc kv => upsertKeepTtl acc now kv.1 kv.2) t)

end Store

/-- Byte string of an ASCII text (used for the decimal texts `increment`
stores; all their characters are ASCII, where the byte is the code point). -/
def strBytes (s : String) : Bytes :=
  s.toList.map Char.toNat

/-- Decimal value of a digit string ('0'..'9' are bytes 48..57); `none` for
the empty string, or as soon as a non-digit byte appears. -/
def digitsVal : List Nat → Option Nat
  | [] => none
  | d :: ds =>
    (d :: ds).foldl (fun acc d2 =>
      match acc with
      | none => none
      | some n => if 48 ≤ d2 ∧ d2 ≤ 57 then some (n * 10 + (d2 - 48)) else none)
      (some 0)

/-- The whitespace bytes PostgreSQL's integer reader skips around a number
(C `isspace`): space, tab, line feed, vertical tab, form feed, carriage
return. -/
def isSpaceByte (d : Nat) : Bool :=
  decide (d = 32 ∨ (9 ≤ d ∧ d ≤ 13))

/-- PostgreSQL's text-to-`bigint` cast (`encode(value,'escape')::bigint`,
`int8in`): optional whitespace on either side, an optional sign, then at
least one digit, within the signed 64-bit range; anything else — including
a bare sign with no digits — raises an error, modelled as `none`.
(`COALESCE(...,0)` in the source never fires: the `value` column is NOT
NULL, and an unparsable text is an error, not NULL.) -/
def parseBigint (b : Bytes) : Option Int :=
  let trimmed := ((b.dropWhile isSpaceByte).reverse.dropWhile isSpaceByte).reverse
  let signed : Int × List Nat :=
    match trimmed with
    | 43 :: rest => (1, rest)
    | 45 :: rest => (-1, rest)
    | _ => (1, trimmed)
  match digitsVal signed.2 with
  | some n =>
    let v : Int := signed.1 * (n : Int)
    if -(2 ^ 63) ≤ v ∧ v < 2 ^ 63 then some v else none
  | none => none

namespace Store

/-- `Store::increment`: one statement — insert `delta` as decimal text when
the key is absent; on conflict parse the stored text as `bigint`, add
`delta`, store the sum as decimal text, returning the new value.  An
unparsable stored text (or 64-bit overflow of the sum) makes the statement
fail with a query error. -/
def increment (c : Config) (t : Table) (now : Int) (key : String) (delta : Int) :
    Except Error Int × Table :=
  match validate_key c key with
  | Except.error e => (Except.error e, t)
  | Except.ok _ =>
    match findRow t key with
    | none =>
      (Except.ok delta,
       t ++ [{ key := key, value := strBytes (toString delta),
               expires_at := none, created_at := now, updated_at := now }])
    | some r =>
      match parseBigint r.value with
      | none => (Except.error (Error.Query "invalid input syntax for type bigint"), t)
      | some n =>
        let newValue := n + delta
        if -(2 ^ 63) ≤ newValue ∧ newValue < 2 ^ 63 then
          (Except.ok newValue, t.map (fun r2 =>
            if r2.key == key then
              { r2 with value := strBytes (toString newValue), updated_at := now }
            else r2))
        else (Except.error (Error.Query "bigint out of range"), t)

end Store

/-- The row filter of the conditional UPDATE inside `compare_and_swap`:
`WHERE key = $1 AND value = $3 AND (expires_at IS NULL OR expires_at >
NOW())` — the liveness conjunct is part of the SQL unconditionally. -/
def casMatches (key : String) (expected : Bytes) (now : Int) (r : Row) : Bool :=
  r.key == key && r.value == expected && rowLive r now

namespace Store

/-- `Store::compare_and_swap`.  `expected = none`: `set_nx`, and on conflict
a re-read reporting `Mismatch{current}`.  `expected = some v`: the
conditional UPDATE above; on zero matched rows a follow-up `get` classifies
the failure as `NotFound` (absent) or `Mismatch{current}` (present). -/
def compare_and_swap (c : Config) (t : Table) (now : Int) (delOk : Bool)
    (key : String) (expected : Option Bytes) (new_value : Bytes) :
    Except Error CasResult × Table :=
  match validate_key c key with
  | Except.error e => (Except.error e, t)
  | Except.ok _ =>
    match validate_value c new_value with
    | Except.error e => (Except.error e, t)
    | Except.ok _ =>
      match expected with
      | none =>
        match set_nx c t now key new_value with
        | (Except.error e, t1) => (Except.error e, t1)
        | (Except.ok true, t1) => (Except.ok CasResult.Success, t1)
        | (Except.ok false, t1) =>
          match get c t1 now delOk key with
          | (Except.error e, t2) => (Except.error e, t2)
          | (Except.ok current, t2) => (Except.ok (CasResult.Mismatch current), t2)
      | some expected_value =>
        let count := (t.filter (casMatches key expected_value now)).length
        if count > 0 then
          (Except.ok CasResult.Success, t.map (fun r =>
            if casMatches key expected_value now r then
              { r with value := new_value, updated_at := now }
            else r))
        else
          match get c t now delOk key with
          | (Except.error e, t2) => (Except.error e, t2)
          | (Except.ok (some current), t2) =>
            (Except.ok (CasResult.Mismatch (some current)), t2)
          | (Except.ok none, t2) => (Except.ok CasResult.NotFound, t2)

end Store

/-- `escape_like` (src/store.rs): escape backslash, `%` and `_` for use in a
LIKE pattern, by the same three sequential replacements as the source. -/
def escape_like (s : String) : String :=
  ((s.replace "\\" "\\\\").replace "%" "\\%").replace "_" "\\_"

/-- PostgreSQL `LIKE` matching with backslash escapes: `%` matches any
sequence, `_` any single character, a backslash makes the next pattern
character literal. -/
def likeMatch : List Char → List Char → Bool
  | [], [] => true
  | [], _ :: _ => false
  | '%' :: ps, [] => likeMatch ps []
  | '%' :: ps, d :: ds => likeMatch ps (d :: ds) || likeMatch ('%' :: ps) ds
  | '\\' :: c :: ps, d :: ds => c == d && likeMatch ps ds
  | '\\' :: _ :: _, [] => false
  | ['\\'], _ => false
  | '_' :: ps, _ :: ds => likeMatch ps ds
  | '_' :: _, [] => false
  | p :: ps, d :: ds => p == d && likeMatch ps ds
  | _ :: _, [] => false
termination_by p s => (p.length, s.length)

/-- The shared WHERE clause of `keys`, `scan` and `count`: start from
`1=1`, add the liveness filter unless `include_expired`, add
`key LIKE escape_like(prefix) || '%'` when a prefix is given. -/
def scanFilterPred (o : ScanOptions) (now : Int) (r : Row) : Bool :=
  (o.include_expired || rowLive r now) &&
  (match o.pfx with
   | none => true
   | some p => likeMatch (escape_like p ++ "%").toList r.key.toList)

/-- Lexicographic `≤` on keys as character lists (the order `ORDER BY key`
sorts by). -/
def keyLeChars : List Char → List Char → Bool
  | [], _ => true
  | _ :: _, [] => false
  | a :: as, b :: bs =>
    if a.toNat < b.toNat then true
    else if b.toNat < a.toNat then false
    else keyLeChars as bs

/-- Lexicographic `≤` on keys. -/
def keyLe (a b : String) : Bool :=
  keyLeChars a.data b.data

/-- Insert a row into a key-sorted list. -/
def insertByKey (r : Row) : List Row → List Row
  | [] => [r]
  | s :: rest => if keyLe r.key s.key then r :: s :: rest else s :: insertByKey r rest

/-- `ORDER BY key` of `keys` and `scan`: the backend returns the filtered
rows sorted by key (the sorting algorithm itself is the backend's business;
any sort by key models it). -/
def orderByKey : List Row → List Row
  | [] => []
  | r :: rest => insertByKey r (orderByKey rest)

/-- `LIMIT` / `OFFSET` of `keys` and `scan` (SQL applies OFFSET before
LIMIT regardless of clause order). -/
def applyPage (o : ScanOptions) (rows : List Row) : List Row :=
  let rows := match o.offset with
    | some off => rows.drop off
    | none => rows
  match o.limit with
  | some l => rows.take l
  | none => rows

namespace Store

/-- `Store::keys`: shared filter, `ORDER BY key`, `LIMIT`/`OFFSET`,
projecting the key column.  The config is not consulted. -/
def keys (c : Config) (t : Table) (now : Int) (o : ScanOptions) :
    Except Error (List String) × Table :=
  (Except.ok ((applyPage o (orderByKey (t.filter (scanFilterPred o now)))).map
    Row.key), t)

/-- `Store::scan`: shared filter, `ORDER BY key`, `LIMIT`/`OFFSET`,
projecting key and value. -/
def scan (c : Config) (t : Table) (now : Int) (o : ScanOptions) :
    Except Error (List KeyValue) × Table :=
  (Except.ok ((applyPage o (orderByKey (t.filter (scanFilterPred o now)))).map
    (fun r => { key := r.key, value := r.value })), t)

/-- `Store::count`: `SELECT COUNT(*)` under the shared filter; neither
`ORDER BY` nor `LIMIT`/`OFFSET` is added. -/
def count (c : Config) (t : Table) (now : Int) (o : ScanOptions) :
    Except Error Nat × Table :=
  (Except.ok (t.filter (scanFilterPred o now)).length, t)

end Store

/-! Concrete fixtures used by the counterexamples and witnesses. -/

/-- A one-row table whose single row `"k" ↦ "v1"` expired at time `-1`
(strictly in the past of the evaluation time `0` used below). -/
def tblExpired : Table :=
  [{ key := "k", value := strBytes "v1", expires_at := some (-1),
     created_at := -10, updated_at := -10 }]

/-- A two-row table with live (never-expiring) rows `"a"` and `"b"`. -/
def tblTwo : Table :=
  [{ key := "b", value := strBytes "vb", expires_at := none,
     created_at := 0, updated_at := 0 },
   { key := "a", value := strBytes "va", expires_at := none,
     created_at := 0, updated_at := 0 }]

/-- A one-row table whose value is not parsable as a `bigint`. -/
def tblAbc : Table :=
  [{ key := "k", value := strBytes "abc", expires_at := none,
     created_at := 0, updated_at := 0 }]

/-- A one-row table holding the counter text `"41"`. -/
def tblNum : Table :=
  [{ key := "k", value := strBytes "41", expires_at := none,
     created_at := 0, updated_at := 0 }]

/-! Helper lemmas about the embedded primitives. -/

theorem rowLive_eq_true_iff (r : Row) (now : Int) :
    rowLive r now = true ↔
      r.expires_at = none ∨ ∃ e, r.expires_at = some e ∧ now < e := by
  unfold rowLive
  cases h : r.expires_at with
  | none => simp
  | some e => simp [h]

theorem rowLive_eq_false_of_expired {r : Row} {now e : Int}
    (he : r.expires_at = some e) (hle : e ≤ now) : rowLive r now = false := by
  unfold rowLive
  rw [he]
  simp only [decide_eq_false_iff_not]
  omega

theorem findRow_unique {t : Table} {k : String} {r : Row}
    (hnd : (t.map Row.key).Nodup) (hf : findRow t k = some r) :
    ∀ x ∈ t, x.key = k → x = r := by
  induction t with
  | nil => simp [findRow] at hf
  | cons y ys ih =>
    rw [List.map_cons, List.nodup_cons] at hnd
    intro x hx hxk
    by_cases hky : (y.key == k) = true
    · have hr : r = y := by
        unfold findRow at hf
        rw [List.find?_cons, hky] at hf
        exact (Option.some.inj hf).symm
      rcases List.mem_cons.1 hx with hxy | hxys
      · rw [hxy, hr]
      · exfalso
        apply hnd.1
        have hyx : y.key = x.key := by
          rw [hxk, ← beq_iff_eq.1 hky]
        rw [hyx]
        exact List.mem_map_of_mem Row.key hxys
    · have hky' : (y.key == k) = false := by simpa using hky
      have hf' : findRow ys k = some r := by
        unfold findRow at hf ⊢
        rwa [List.find?_cons, hky'] at hf
      rcases List.mem_cons.1 hx with hxy | hxys
      · exfalso
        exact hky (by rw [hxy] at hxk; exact beq_iff_eq.2 hxk)
      · exact ih hnd.2 hf' x hxys hxk

theorem except_unit_not_ok {x : Except Error Unit} (h : x ≠ Except.ok ()) :
    ∃ e, x = Except.error e := by
  cases x with
  | error e => exact ⟨e, rfl⟩
  | ok u => cases u; exact absurd rfl h



theorem findRow_key {t : Table} {k : String} {r : Row}
    (hf : findRow t k = some r) : (r.key == k) = true := by
  unfold findRow at hf
  exact @List.find?_some _ (fun x => x.key == k) r t hf

theorem findRow_mem {t : Table} {k : String} {r : Row}
    (hf : findRow t k = some r) : r ∈ t := by
  unfold findRow at hf
  exact List.mem_of_find?_eq_some hf

theorem any_key_of_findRow {t : Table} {k : String} {r : Row}
    (hf : findRow t k = some r) : t.any (fun x => x.key == k) = true :=
  List.any_eq_true.2 ⟨r, findRow_mem hf, findRow_key hf⟩

theorem not_any_key_of_findRow_none {t : Table} {k : String}
    (hf : findRow t k = none) : ¬ (t.any (fun x => x.key == k) = true) := by
  unfold findRow at hf
  rw [List.any_eq_true]
  rintro ⟨x, hx, hp⟩
  exact List.find?_eq_none.1 hf x hx hp

theorem findRow_map_keyfix {g : Row → Row} (hg : ∀ x, (g x).key = x.key)
    (t : Table) (k : String) :
    findRow (t.map g) k = Option.map g (findRow t k) := by
  unfold findRow
  rw [List.find?_map]
  have hp : ((fun x : Row => x.key == k) ∘ g) = fun x : Row => x.key == k := by
    funext x
    simp [Function.comp, hg x]
  rw [hp]

theorem findRow_upsertRow_of_found {t : Table} {k : String} {r : Row}
    (hf : findRow t k = some r) (now : Int) (v : Bytes) (ea : Option Int) :
    findRow (upsertRow t now k v ea) k =
      some { r with value := v, expires_at := ea, updated_at := now } := by
  have hg : ∀ x : Row, ((if x.key == k then
      { x with value := v, expires_at := ea, updated_at := now } else x) : Row).key
        = x.key := by
    intro x
    by_cases h : (x.key == k) = true <;> simp [h]
  unfold upsertRow
  rw [if_pos (any_key_of_findRow hf), findRow_map_keyfix hg, hf]
  simp only [Option.map_some']
  rw [if_pos (findRow_key hf)]

theorem findRow_upsertRow_of_none {t : Table} {k : String}
    (hf : findRow t k = none) (now : Int) (v : Bytes) (ea : Option Int) :
    findRow (upsertRow t now k v ea) k =
      some { key := k, value := v, expires_at := ea,
             created_at := now, updated_at := now } := by
  unfold upsertRow
  rw [if_neg (not_any_key_of_findRow_none hf)]
  unfold findRow at hf ⊢
  rw [List.find?_append, hf]
  simp [List.find?_cons]

theorem findRow_upsertKeepTtl_of_found {t : Table} {k : String} {r : Row}
    (hf : findRow t k = some r) (now : Int) (v : Bytes) :
    findRow (upsertKeepTtl t now k v) k =
      some { r with value := v, updated_at := now } := by
  have hg : ∀ x : Row, ((if x.key == k then
      { x with value := v, updated_at := now } else x) : Row).key = x.key := by
    intro x
    by_cases h : (x.key == k) = true <;> simp [h]
  unfold upsertKeepTtl
  rw [if_pos (any_key_of_findRow hf), findRow_map_keyfix hg, hf]
  simp only [Option.map_some']
  rw [if_pos (findRow_key hf)]

theorem findRow_upsertKeepTtl_of_none {t : Table} {k : String}
    (hf : findRow t k = none) (now : Int) (v : Bytes) :
    findRow (upsertKeepTtl t now k v) k =
      some { key := k, value := v, expires_at := none,
             created_at := now, updated_at := now } := by
  unfold upsertKeepTtl
  rw [if_neg (not_any_key_of_findRow_none hf)]
  unfold findRow at hf ⊢
  rw [List.find?_append, hf]
  simp [List.find?_cons]

theorem findRow_upsertKeepTtl_other {t : Table} {now : Int} {k k' : String}
    {v : Bytes} (hne : k' ≠ k) :
    findRow (upsertKeepTtl t now k v) k' = findRow t k' := by
  have hg : ∀ x : Row, ((if x.key == k then
      { x with value := v, updated_at := now } else x) : Row).key = x.key := by
    intro x
    by_cases h : (x.key == k) = true <;> simp [h]
  unfold upsertKeepTtl
  by_cases hany : t.any (fun x => x.key == k) = true
  · rw [if_pos hany, findRow_map_keyfix hg]
    cases hres : findRow t k' with
    | none => rfl
    | some x =>
      have hxk : x.key = k' := beq_iff_eq.1 (findRow_key hres)
      have hxf : (x.key == k) = false := by
        rw [beq_eq_false_iff_ne, hxk]
        exact hne
      have hcnot : ¬ ((x.key == k) = true) := by
        rw [hxf]
        exact Bool.false_ne_true
      simp only [Option.map_some']
      rw [if_neg hcnot]
  · rw [if_neg hany]
    unfold findRow
    rw [List.find?_append]
    have hlast :
        (({ key := k, value := v, expires_at := none, created_at := now,
            updated_at := now } : Row).key == k') = false := by
      rw [beq_eq_false_iff_ne]
      exact fun h => hne h.symm
    simp [List.find?_cons, hlast]

theorem mem_upsertKeepTtl_other {t : Table} {now : Int} {k : String} {v : Bytes}
    {x : Row} (hx : x ∈ t) (hne : x.key ≠ k) : x ∈ upsertKeepTtl t now k v := by
  have hxk : (x.key == k) = false := by
    rw [beq_eq_false_iff_ne]
    exact hne
  unfold upsertKeepTtl
  by_cases hany : t.any (fun y => y.key == k) = true
  · rw [if_pos hany]
    have h2 := List.mem_map_of_mem
      (fun y : Row => if y.key == k then { y with value := v, updated_at := now } else y) hx
    simpa [hxk] using h2
  · rw [if_neg hany]
    exact List.mem_append_left _ hx

theorem mem_upsertRow_other {t : Table} {now : Int} {k : String} {v : Bytes}
    {ea : Option Int} {x : Row} (hx : x ∈ t) (hne : x.key ≠ k) :
    x ∈ upsertRow t now k v ea := by
  have hxk : (x.key == k) = false := by
    rw [beq_eq_false_iff_ne]
    exact hne
  unfold upsertRow
  by_cases hany : t.any (fun y => y.key == k) = true
  · rw [if_pos hany]
    have h2 := List.mem_map_of_mem
      (fun y : Row => if y.key == k then
        { y with value := v, expires_at := ea, updated_at := now } else y) hx
    simpa [hxk] using h2
  · rw [if_neg hany]
    exact List.mem_append_left _ hx

theorem findRow_foldl_upsertKeepTtl_notmem {now : Int} :
    ∀ (items : List (String × Bytes)) (t : Table) (k : String),
      k ∉ items.map Prod.fst →
      findRow (items.foldl (fun acc kv => upsertKeepTtl acc now kv.1 kv.2) t) k
        = findRow t k := by
  intro items
  induction items with
  | nil =>
    intro t k _
    rfl
  | cons p rest ih =>
    intro t k h
    rw [List.map_cons, List.mem_cons] at h
    push_neg at h
    rw [List.foldl_cons, ih _ _ h.2, findRow_upsertKeepTtl_other h.1]

theorem findRow_foldl_upsertKeepTtl_mem {now : Int} :
    ∀ (items : List (String × Bytes)) (t : Table) (k : String) (v : Bytes) (r : Row),
      (items.map Prod.fst).Nodup → (k, v) ∈ items → findRow t k = some r →
      findRow (items.foldl (fun acc kv => upsertKeepTtl acc now kv.1 kv.2) t) k
        = some { r with value := v, updated_at := now } := by
  intro items
  induction items with
  | nil =>
    intro t k v r _ hmem _
    exact absurd hmem (List.not_mem_nil _)
  | cons p rest ih =>
    intro t k v r hnd hmem hf
    rw [List.map_cons, List.nodup_cons] at hnd
    rcases List.mem_cons.1 hmem with hp | hmem2
    · have hk1 : p.1 = k := by rw [← hp]
      have hkrest : k ∉ rest.map Prod.fst := by
        rw [← hk1]
        exact hnd.1
      rw [List.foldl_cons, findRow_foldl_upsertKeepTtl_notmem rest _ k hkrest, ← hp]
      exact findRow_upsertKeepTtl_of_found hf now v
    · have hne : k ≠ p.1 := by
        intro hk
        apply hnd.1
        rw [hk] at hmem2
        exact List.mem_map.2 ⟨(p.1, v), hmem2, rfl⟩
      rw [List.foldl_cons]
      exact ih _ k v r hnd.2 hmem2
        (by rw [findRow_upsertKeepTtl_other hne]; exact hf)

theorem mem_foldl_upsertKeepTtl_other {now : Int} :
    ∀ (items : List (String × Bytes)) (t : Table) (x : Row),
      x ∈ t → x.key ∉ items.map Prod.fst →
      x ∈ items.foldl (fun acc kv => upsertKeepTtl acc now kv.1 kv.2) t := by
  intro items
  induction items with
  | nil =>
    intro t x hx _
    exact hx
  | cons p rest ih =>
    intro t x hx h
    rw [List.map_cons, List.mem_cons] at h
    push_neg at h
    rw [List.foldl_cons]
    exact ih _ x (mem_upsertKeepTtl_other hx h.1) h.2

theorem mem_insertByKey {s r : Row} :
    ∀ {l : List Row}, s ∈ insertByKey r l ↔ s = r ∨ s ∈ l := by
  intro l
  induction l with
  | nil => simp [insertByKey]
  | cons y ys ih =>
    unfold insertByKey
    by_cases h : keyLe r.key y.key = true
    · rw [if_pos h]
      simp [List.mem_cons]
    · rw [if_neg h]
      rw [List.mem_cons, ih, List.mem_cons]
      tauto

theorem mem_orderByKey {s : Row} : ∀ {l : List Row}, s ∈ orderByKey l ↔ s ∈ l := by
  intro l
  induction l with
  | nil => simp [orderByKey]
  | cons y ys ih =>
    unfold orderByKey
    rw [mem_insertByKey, ih, List.mem_cons]

theorem length_insertByKey (r : Row) :
    ∀ (l : List Row), (insertByKey r l).length = l.length + 1 := by
  intro l
  induction l with
  | nil => rfl
  | cons y ys ih =>
    unfold insertByKey
    by_cases h : keyLe r.key y.key = true
    · rw [if_pos h]
      rfl
    · rw [if_neg h]
      simp [ih]

theorem length_orderByKey : ∀ (l : List Row), (orderByKey l).length = l.length := by
  intro l
  induction l with
  | nil => rfl
  | cons y ys ih =>
    unfold orderByKey
    rw [length_insertByKey, ih]
    rfl

theorem applyPage_subset (o : ScanOptions) (l : List Row) :
    ∀ x ∈ applyPage o l, x ∈ l := by
  intro x hx
  unfold applyPage at hx
  rcases ho : o.offset with _ | off <;> rcases hl : o.limit with _ | lim <;>
    simp only [ho, hl] at hx
  · exact hx
  · exact List.take_subset _ _ hx
  · exact List.drop_subset _ _ hx
  · exact List.drop_subset _ _ (List.take_subset _ _ hx)

theorem validate_items_ok_iff (c : Config) :
    ∀ items : List (String × Bytes),
      Store.validate_items c items = Except.ok () ↔
        ∀ p ∈ items, Store.validate_key c p.1 = Except.ok () ∧
          Store.validate_value c p.2 = Except.ok () := by
  intro items
  induction items with
  | nil => simp [Store.validate_items]
  | cons p rest ih =>
    obtain ⟨k, v⟩ := p
    constructor
    · intro h
      simp only [Store.validate_items] at h
      cases hk : Store.validate_key c k with
      | error e => simp [hk] at h
      | ok u =>
        cases u
        cases hv : Store.validate_value c v with
        | error e => simp [hk, hv] at h
        | ok u2 =>
          cases u2
          simp only [hk, hv] at h
          intro q hq
          rcases List.mem_cons.1 hq with hq1 | hq2
          · rw [hq1]
            exact ⟨hk, hv⟩
          · exact ih.1 h q hq2
    · intro h
      have h1 := h (k, v) (List.mem_cons_self _ _)
      simp only [Store.validate_items, h1.1, h1.2]
      exact ih.2 (fun q hq => h q (List.mem_cons_of_mem _ hq))

/-! Claim theorems. -/

/-- Claim C5 (confirmed): for every key and value accepted by the limit
checks, `set(key, value)` followed immediately by `get(key)` returns
`Some(value)` byte-for-byte (the model's bytes are arbitrary naturals, so
this covers non-UTF8 and zero bytes), whatever the cleanup strategy and
whether or not the opportunistic cleanup delete would succeed. -/
theorem C5_set_get_roundtrip (c : Config) (t : Table) (now : Int)
    (k : String) (v : Bytes)
    (hk : Store.validate_key c k = Except.ok ())
    (hv : Store.validate_value c v = Except.ok ()) :
    (Store.set c t now k v).1 = Except.ok () ∧
    ∀ delOk, (Store.get c (Store.set c t now k v).2 now delOk k).1
      = Except.ok (some v) := by
  have hset : Store.set c t now k v = (Except.ok (), upsertRow t now k v none) := by
    unfold Store.set Store.set_internal
    rw [hk, hv]
  constructor
  · rw [hset]
  · intro delOk
    rw [hset]
    have hfind : ∃ r', findRow (upsertRow t now k v none) k = some r' ∧
        r'.value = v ∧ r'.expires_at = none := by
      cases hf : findRow t k with
      | some r => exact ⟨_, findRow_upsertRow_of_found hf now v none, rfl, rfl⟩
      | none => exact ⟨_, findRow_upsertRow_of_none hf now v none, rfl, rfl⟩
    obtain ⟨r', hr', hval, hea⟩ := hfind
    simp only [Store.get, hk, hr', hea]
    cases c.ttl_enabled <;> simp [hval]

/-- Concrete run of the C5 round trip on a value containing a zero byte and
a non-UTF8 byte. -/
theorem C5_roundtrip_witness :
    (Store.get defaultConfig (Store.set defaultConfig [] 0 "k" [0, 255]).2
      0 true "k").1 = Except.ok (some [0, 255]) :=
  (C5_set_get_roundtrip defaultConfig [] 0 "k" [0, 255]
    (by decide) (by decide)).2 true

/-- Claim C8 (confirmed): `exists(key)` returns true iff a row for the key
exists whose expiration, when present, is strictly in the future at
evaluation time; the result is identical under all three cleanup strategies
and the table is never modified. -/
theorem C8_exists_semantics (c : Config) (t : Table) (now : Int) (k : String)
    (hk : Store.validate_key c k = Except.ok ()) :
    (∀ s, Store.existsKey { c with ttl_cleanup_strategy := s } t now k
        = Store.existsKey c t now k) ∧
    (Store.existsKey c t now k).2 = t ∧
    ((Store.existsKey c t now k).1 = Except.ok true ↔
      ∃ r ∈ t, r.key = k ∧
        (r.expires_at = none ∨ ∃ e, r.expires_at = some e ∧ now < e)) := by
  refine ⟨?_, ?_, ?_⟩
  · intro s
    rfl
  · simp only [Store.existsKey, hk]
  · simp only [Store.existsKey, hk, Except.ok.injEq]
    rw [List.find?_isSome]
    simp only [Bool.and_eq_true, beq_iff_eq, rowLive_eq_true_iff]

/-- Concrete run of C8: a live row is reported as present. -/
theorem C8_exists_witness :
    (Store.existsKey defaultConfig tblTwo 0 "a").1 = Except.ok true :=
  (C8_exists_semantics defaultConfig tblTwo 0 "a" (by decide)).2.2.mpr
    ⟨{ key := "a", value := strBytes "va", expires_at := none,
       created_at := 0, updated_at := 0 }, by decide, rfl, Or.inl rfl⟩

/-- Claim C1 (counterexample): on a store whose strategy is `Disabled`, with
a row whose expiration (time `-1`) is strictly before the evaluation time
`0`, `get` does report the original value, but `exists` reports the key as
absent and `scan` omits it — contradicting the claim that all three report
presence under `Disabled`. -/
theorem C1_counterexample :
    (Store.get (configWith TtlCleanupStrategy.Disabled) tblExpired 0 true "k").1
      = Except.ok (some (strBytes "v1")) ∧
    (Store.existsKey (configWith TtlCleanupStrategy.Disabled) tblExpired 0 "k").1
      = Except.ok false ∧
    (Store.scan (configWith TtlCleanupStrategy.Disabled) tblExpired 0 {}).1
      = Except.ok [] := by
  decide

/-- Claim C1 (amended): for every key whose stored expiration is strictly in
the past, `get`, `exists` and `scan` report the key as absent under the
`OnRead` and `Manual` strategies; under `Disabled`, `get` reports it as
present with the original value, while `exists` and `scan` (with default
options) still report it as absent, because their SQL liveness filter does
not depend on the strategy. -/
theorem C1_expiry_visibility (c : Config) (t : Table) (now : Int)
    (k : String) (r : Row) (e : Int)
    (hnd : (t.map Row.key).Nodup)
    (hk : Store.validate_key c k = Except.ok ())
    (hf : findRow t k = some r)
    (he : r.expires_at = some e) (hlt : e < now) :
    ((c.ttl_cleanup_strategy = TtlCleanupStrategy.OnRead ∨
      c.ttl_cleanup_strategy = TtlCleanupStrategy.Manual) →
      ∀ delOk, (Store.get c t now delOk k).1 = Except.ok none) ∧
    (c.ttl_cleanup_strategy = TtlCleanupStrategy.Disabled →
      ∀ delOk, (Store.get c t now delOk k).1 = Except.ok (some r.value)) ∧
    (Store.existsKey c t now k).1 = Except.ok false ∧
    (∃ l, (Store.scan c t now {}).1 = Except.ok l ∧ ∀ kv ∈ l, kv.key ≠ k) := by
  have hlive : rowLive r now = false :=
    rowLive_eq_false_of_expired he (le_of_lt hlt)
  refine ⟨?_, ?_, ?_, ?_⟩
  · intro hs delOk
    have ht : c.ttl_enabled = true := by
      rcases hs with hs | hs <;> simp [Config.ttl_enabled, hs]
    simp only [Store.get, hk, hf, ht, he, if_true]
    rw [if_pos hlt]
    cases c.cleanup_on_read <;> cases delOk <;> simp
  · intro hs delOk
    have ht : c.ttl_enabled = false := by
      simp [Config.ttl_enabled, hs]
    simp only [Store.get, hk, hf, ht]
    simp
  · have hnone : t.find? (fun x => x.key == k && rowLive x now) = none := by
      rw [List.find?_eq_none]
      intro x hx hp
      rw [Bool.and_eq_true] at hp
      have hxk : x.key = k := beq_iff_eq.1 hp.1
      have h2 := hp.2
      rw [findRow_unique hnd hf x hx hxk, hlive] at h2
      exact Bool.false_ne_true h2
    simp only [Store.existsKey, hk, hnone]
    rfl
  · refine ⟨_, rfl, ?_⟩
    intro kv hkv
    rw [List.mem_map] at hkv
    obtain ⟨x, hx, rfl⟩ := hkv
    intro hkey
    have hx1 := applyPage_subset _ _ _ hx
    have hx2 := mem_orderByKey.1 hx1
    obtain ⟨hxt, hpred⟩ := List.mem_filter.1 hx2
    rw [findRow_unique hnd hf x hxt hkey] at hpred
    unfold scanFilterPred at hpred
    simp [hlive] at hpred

/-- Concrete run of C1 (amended): the expired row is a miss for `get` under
the default `OnRead` strategy. -/
theorem C1_expiry_witness :
    (Store.get defaultConfig tblExpired 0 true "k").1 = Except.ok none :=
  (C1_expiry_visibility defaultConfig tblExpired 0 "k"
    { key := "k", value := strBytes "v1", expires_at := some (-1),
      created_at := -10, updated_at := -10 }
    (-1) (by decide) (by decide) (by decide) rfl (by decide)).1 (Or.inl rfl) true

/-- When every pair passes validation, `set_many` applies all the upserts. -/
theorem set_many_ok (c : Config) (t : Table) (now : Int)
    (items : List (String × Bytes))
    (hall : ∀ p ∈ items, Store.validate_key c p.1 = Except.ok () ∧
      Store.validate_value c p.2 = Except.ok ()) :
    Store.set_many c t now items =
      (Except.ok (), items.foldl (fun acc kv => upsertKeepTtl acc now kv.1 kv.2) t) := by
  cases hempty : items.isEmpty with
  | true =>
    have hnil : items = [] := by
      cases items with
      | nil => rfl
      | cons q rest => simp at hempty
    subst hnil
    rfl
  | false =>
    unfold Store.set_many
    rw [if_neg (by rw [hempty]; exact Bool.false_ne_true),
      (validate_items_ok_iff c items).2 hall]

/-- Claim C2 (confirmed): `set_many` validates every pair before issuing any
backend statement — if any pair violates the key-length or value-size limit
the call fails with that validation error and the table is unchanged (zero
writes); when all pairs are valid, all upserts are applied inside the single
transaction.  (The model's backend statements are deterministic and cannot
fail mid-batch, so the transaction always commits in the valid case.) -/
theorem C2_set_many_atomicity (c : Config) (t : Table) (now : Int)
    (items : List (String × Bytes)) :
    ((∃ p ∈ items, Store.validate_key c p.1 ≠ Except.ok () ∨
        Store.validate_value c p.2 ≠ Except.ok ()) →
      (∃ e, (Store.set_many c t now items).1 = Except.error e) ∧
      (Store.set_many c t now items).2 = t) ∧
    ((∀ p ∈ items, Store.validate_key c p.1 = Except.ok () ∧
        Store.validate_value c p.2 = Except.ok ()) →
      Store.set_many c t now items =
        (Except.ok (),
         items.foldl (fun acc kv => upsertKeepTtl acc now kv.1 kv.2) t)) := by
  constructor
  · rintro ⟨p, hp, hbad⟩
    have hitems : ¬ items.isEmpty = true := by
      cases items with
      | nil => exact absurd hp (List.not_mem_nil p)
      | cons q rest => simp
    have hvi : Store.validate_items c items ≠ Except.ok () := by
      intro hok
      have hgood := (validate_items_ok_iff c items).1 hok p hp
      rcases hbad with hb | hb
      · exact hb hgood.1
      · exact hb hgood.2
    obtain ⟨e, he⟩ := except_unit_not_ok hvi
    unfold Store.set_many
    rw [if_neg hitems, he]
    exact ⟨⟨e, rfl⟩, rfl⟩
  · exact set_many_ok c t now items

/-- Concrete run of C2: a batch whose second pair has an empty (invalid) key
fails and writes nothing, although its first pair was valid. -/
theorem C2_set_many_witness :
    (∃ e, (Store.set_many defaultConfig tblTwo 0
      [("a", [1]), ("", [2])]).1 = Except.error e) ∧
    (Store.set_many defaultConfig tblTwo 0 [("a", [1]), ("", [2])]).2 = tblTwo :=
  (C2_set_many_atomicity defaultConfig tblTwo 0 [("a", [1]), ("", [2])]).1
    ⟨("", [2]), by decide, Or.inl (by decide)⟩

/-- Claim C10 (confirmed): for a key that already exists with an expiration
set, a `set_many` batch containing that key updates its value and
`updated_at` but leaves `expires_at` (and `created_at`) unchanged, whereas a
single `set` on the same key overwrites `expires_at` to none; rows with
other keys are untouched by either. -/
theorem C10_set_many_vs_set_frame (c : Config) (t : Table) (now : Int)
    (items : List (String × Bytes)) (k : String) (v : Bytes) (r : Row) (e : Int)
    (hnd : (items.map Prod.fst).Nodup)
    (hmem : (k, v) ∈ items)
    (hall : ∀ p ∈ items, Store.validate_key c p.1 = Except.ok () ∧
      Store.validate_value c p.2 = Except.ok ())
    (hf : findRow t k = some r)
    (he : r.expires_at = some e) :
    findRow (Store.set_many c t now items).2 k
      = some { r with value := v, updated_at := now } ∧
    ({ r with value := v, updated_at := now } : Row).expires_at = some e ∧
    findRow (Store.set c t now k v).2 k
      = some { r with value := v, expires_at := none, updated_at := now } ∧
    (∀ x ∈ t, x.key ∉ items.map Prod.fst → x ∈ (Store.set_many c t now items).2) ∧
    (∀ x ∈ t, x.key ≠ k → x ∈ (Store.set c t now k v).2) := by
  have hvk := (hall (k, v) hmem).1
  have hvv := (hall (k, v) hmem).2
  have hset : Store.set c t now k v = (Except.ok (), upsertRow t now k v none) := by
    unfold Store.set Store.set_internal
    rw [hvk, hvv]
  rw [set_many_ok c t now items hall, hset]
  refine ⟨?_, ?_, ?_, ?_, ?_⟩
  · exact findRow_foldl_upsertKeepTtl_mem items t k v r hnd hmem hf
  · exact he
  · exact findRow_upsertRow_of_found hf now v none
  · intro x hx hnk
    exact mem_foldl_upsertKeepTtl_other items t x hx hnk
  · intro x hx hnk
    exact mem_upsertRow_other hx hnk

/-- Concrete run of C10: the batch upsert keeps the stored expiration
`some (-1)` while replacing the value. -/
theorem C10_frame_witness :
    findRow (Store.set_many defaultConfig tblExpired 0 [("k", [57])]).2 "k"
      = some { key := "k", value := [57], expires_at := some (-1),
               created_at := -10, updated_at := 0 } :=
  (C10_set_many_vs_set_frame defaultConfig tblExpired 0 [("k", [57])] "k" [57]
    { key := "k", value := strBytes "v1", expires_at := some (-1),
      created_at := -10, updated_at := -10 }
    (-1) (by decide) (by decide) (by decide) (by decide) rfl).1

/-- Claim C7 (counterexample): under the `Disabled` strategy, `get_many`
still excludes the expired row — the claim said that under `Disabled`
expired keys are included. -/
theorem C7_counterexample :
    Store.get_many (configWith TtlCleanupStrategy.Disabled) tblExpired 0 ["k"]
      = (Except.ok [], tblExpired) ∧
    (Store.get_many (configWith TtlCleanupStrategy.Disabled) tblExpired 0 ["k"]).1
      ≠ Except.ok [{ key := "k", value := strBytes "v1" }] := by
  decide

/-- Claim C7 (amended): `get_many(keys)` returns exactly the pairs for
requested keys whose row exists and is not expired — the expired-row
exclusion is baked into the SQL and applies under every cleanup strategy,
including `Disabled` — and it never modifies the table (no `OnRead` cleanup
deletion on this bulk path). -/
theorem C7_get_many_semantics (c : Config) (t : Table) (now : Int)
    (ks : List String)
    (hv : Store.validate_keys c ks = Except.ok ()) :
    (Store.get_many c t now ks).2 = t ∧
    ∃ res, (Store.get_many c t now ks).1 = Except.ok res ∧
      (∀ kv ∈ res, kv.key ∈ ks ∧
        ∃ x ∈ t, x.key = kv.key ∧ x.value = kv.value ∧ rowLive x now = true) ∧
      (∀ x ∈ t, x.key ∈ ks → rowLive x now = true →
        ({ key := x.key, value := x.value } : KeyValue) ∈ res) := by
  cases hek : ks.isEmpty with
  | true =>
    have hnil : ks = [] := by
      cases ks with
      | nil => rfl
      | cons a l => simp at hek
    subst hnil
    refine ⟨rfl, [], rfl, ?_, ?_⟩
    · intro kv hkv
      exact absurd hkv (List.not_mem_nil kv)
    · intro x _ hmem _
      exact absurd hmem (List.not_mem_nil x.key)
  | false =>
    have hne : ¬ ks.isEmpty = true := by
      rw [hek]
      exact Bool.false_ne_true
    have hgm : Store.get_many c t now ks =
        (Except.ok ((t.filter (fun r => ks.contains r.key && rowLive r now)).map
          (fun r => { key := r.key, value := r.value })), t) := by
      unfold Store.get_many
      rw [if_neg hne, hv]
    rw [hgm]
    refine ⟨rfl, _, rfl, ?_, ?_⟩
    · intro kv hkv
      rw [List.mem_map] at hkv
      obtain ⟨x, hx, rfl⟩ := hkv
      obtain ⟨hxt, hp⟩ := List.mem_filter.1 hx
      rw [Bool.and_eq_true] at hp
      exact ⟨List.elem_iff.1 hp.1, x, hxt, rfl, rfl, hp.2⟩
    · intro x hxt hmemks hlive
      rw [List.mem_map]
      refine ⟨x, ?_, rfl⟩
      rw [List.mem_filter, Bool.and_eq_true]
      exact ⟨hxt, List.elem_iff.2 hmemks, hlive⟩

/-- Concrete run of C7 (amended): a bulk read leaves the table untouched. -/
theorem C7_get_many_witness :
    (Store.get_many defaultConfig tblTwo 0 ["a"]).2 = tblTwo :=
  (C7_get_many_semantics defaultConfig tblTwo 0 ["a"] (by decide)).1

/-- Claim C9 (counterexample): under the default `OnRead` strategy, the read
paths `exists`, `get_many` and `scan` observe the expired row as a miss but
do NOT delete it (the table is unchanged and non-empty afterwards), while
`get` does delete it — contradicting the claim that every read path that can
observe expiry attempts the deletion. -/
theorem C9_counterexample :
    (Store.existsKey defaultConfig tblExpired 0 "k").2 = tblExpired ∧
    (Store.get_many defaultConfig tblExpired 0 ["k"]).2 = tblExpired ∧
    (Store.scan defaultConfig tblExpired 0 {}).2 = tblExpired ∧
    tblExpired ≠ [] ∧
    (Store.get defaultConfig tblExpired 0 true "k").2 = [] := by
  decide

/-- Claim C9 (amended): under `OnRead`, all read paths treat the expired row
as a miss, but only `get` and `get_entry` attempt the best-effort deletion —
and a failure of that deletion is ignored (the miss is reported whether or
not the delete succeeds); `exists`, `get_many` and `scan` never delete. -/
theorem C9_onread_cleanup (c : Config) (t : Table) (now : Int)
    (k : String) (r : Row) (e : Int)
    (hcr : c.ttl_cleanup_strategy = TtlCleanupStrategy.OnRead)
    (hnd : (t.map Row.key).Nodup)
    (hk : Store.validate_key c k = Except.ok ())
    (hf : findRow t k = some r)
    (he : r.expires_at = some e) (hlt : e < now) :
    (∀ delOk, (Store.get c t now delOk k).1 = Except.ok none) ∧
    (Store.get c t now true k).2 = t.filter (fun x => !(x.key == k)) ∧
    (Store.get c t now false k).2 = t ∧
    (∀ delOk, (Store.get_entry c t now delOk k).1 = Except.ok none) ∧
    (Store.get_entry c t now true k).2 = t.filter (fun x => !(x.key == k)) ∧
    Store.existsKey c t now k = (Except.ok false, t) ∧
    Store.get_many c t now [k] = (Except.ok [], t) ∧
    (∃ l, Store.scan c t now {} = (Except.ok l, t) ∧ ∀ kv ∈ l, kv.key ≠ k) := by
  have hlive : rowLive r now = false :=
    rowLive_eq_false_of_expired he (le_of_lt hlt)
  have ht : c.ttl_enabled = true := by
    simp [Config.ttl_enabled, hcr]
  have hcor : c.cleanup_on_read = true := by
    simp [Config.cleanup_on_read, hcr]
  have hexp : r.is_expired now = true := by
    unfold Row.is_expired
    rw [he]
    simp [hlt]
  have hnone : t.find? (fun x => x.key == k && rowLive x now) = none := by
    rw [List.find?_eq_none]
    intro x hx hp
    rw [Bool.and_eq_true] at hp
    have h2 := hp.2
    rw [findRow_unique hnd hf x hx (beq_iff_eq.1 hp.1), hlive] at h2
    exact Bool.false_ne_true h2
  refine ⟨?_, ?_, ?_, ?_, ?_, ?_, ?_, ?_⟩
  · intro delOk
    simp only [Store.get, hk, hf, ht, he, if_true]
    rw [if_pos hlt, hcor]
    cases delOk <;> simp
  · simp only [Store.get, hk, hf, ht, he, if_true]
    rw [if_pos hlt, hcor]
    simp [Store.delete_internal]
  · simp only [Store.get, hk, hf, ht, he, if_true]
    rw [if_pos hlt, hcor]
    simp
  · intro delOk
    simp only [Store.get_entry, hk, hf, ht, hexp, Bool.and_self, if_true]
    rw [hcor]
    cases delOk <;> simp
  · simp only [Store.get_entry, hk, hf, ht, hexp, Bool.and_self, if_true]
    rw [hcor]
    simp [Store.delete_internal]
  · simp only [Store.existsKey, hk, hnone]
    rfl
  · have hvk1 : Store.validate_keys c [k] = Except.ok () := by
      simp [Store.validate_keys, hk]
    have hfilter : t.filter (fun x => [k].contains x.key && rowLive x now) = [] := by
      rw [List.filter_eq_nil_iff]
      intro x hx hp
      rw [Bool.and_eq_true] at hp
      have hxk : x.key = k := List.mem_singleton.1 (List.elem_iff.1 hp.1)
      have h2 := hp.2
      rw [findRow_unique hnd hf x hx hxk, hlive] at h2
      exact Bool.false_ne_true h2
    unfold Store.get_many
    rw [if_neg (by simp), hvk1, hfilter]
    rfl
  · refine ⟨_, rfl, ?_⟩
    intro kv hkv
    rw [List.mem_map] at hkv
    obtain ⟨x, hx, rfl⟩ := hkv
    intro hkey
    have hx2 := mem_orderByKey.1 (applyPage_subset _ _ _ hx)
    obtain ⟨hxt, hpred⟩ := List.mem_filter.1 hx2
    rw [findRow_unique hnd hf x hxt hkey] at hpred
    unfold scanFilterPred at hpred
    simp [hlive] at hpred

/-- Concrete run of C9 (amended): when the best-effort cleanup delete fails,
`get` still reports the miss. -/
theorem C9_onread_witness :
    (Store.get defaultConfig tblExpired 0 false "k").1 = Except.ok none :=
  (C9_onread_cleanup defaultConfig tblExpired 0 "k"
    { key := "k", value := strBytes "v1", expires_at := some (-1),
      created_at := -10, updated_at := -10 }
    (-1) rfl (by decide) (by decide) (by decide) rfl (by decide)).1 false

/-- Claim C6 (counterexample): with `limit = 1` on a two-row table, `keys`
returns one key but `count` still returns 2 — `count` does not apply
`limit`/`offset`, so it does not equal the number of keys `keys` returns
under the same options. -/
theorem C6_counterexample :
    (Store.keys defaultConfig tblTwo 0 { limit := some 1 }).1 = Except.ok ["a"] ∧
    (Store.count defaultConfig tblTwo 0 { limit := some 1 }).1 = Except.ok 2 ∧
    (Store.count defaultConfig tblTwo 0 { limit := some 1 }).1 ≠ Except.ok 1 := by
  decide

/-- Claim C6 (amended): `keys`, `scan` and `count` share the same filter
construction (expired-row exclusion unless `include_expired`, escaped-prefix
restriction), and `keys`/`scan` additionally share ordering and pagination —
for every option set, the keys of `scan`'s result are exactly `keys`'s
result; `count` however applies neither `ORDER BY` nor `limit`/`offset`, so
it equals the length of `keys`'s result exactly when no `limit` and no
`offset` are given. -/
theorem C6_filter_sharing (c : Config) (t : Table) (now : Int) (o : ScanOptions) :
    (∃ l kvs, (Store.keys c t now o).1 = Except.ok l ∧
      (Store.scan c t now o).1 = Except.ok kvs ∧ kvs.map KeyValue.key = l) ∧
    (o.limit = none → o.offset = none →
      ∃ l, (Store.keys c t now o).1 = Except.ok l ∧
        (Store.count c t now o).1 = Except.ok l.length) := by
  constructor
  · refine ⟨_, _, rfl, rfl, ?_⟩
    rw [List.map_map]
    rfl
  · intro hl ho
    refine ⟨_, rfl, ?_⟩
    have hpage : applyPage o (orderByKey (t.filter (scanFilterPred o now)))
        = orderByKey (t.filter (scanFilterPred o now)) := by
      unfold applyPage
      rw [hl, ho]
    simp only [Store.count]
    congr 1
    rw [List.length_map, hpage, length_orderByKey]

/-- Concrete run of C6 (amended): without pagination options, `count` equals
the number of keys returned. -/
theorem C6_count_witness :
    (Store.count defaultConfig tblTwo 0 {}).1 = Except.ok 2 := by
  obtain ⟨l, hl, hc⟩ := (C6_filter_sharing defaultConfig tblTwo 0 {}).2 rfl rfl
  have hk : (Except.ok l : Except Error (List String)) = Except.ok ["a", "b"] := by
    rw [← hl]
    decide
  have hl2 : l = ["a", "b"] := by injection hk
  rw [hc, hl2]
  rfl

/-- Claim C4 (counterexample): incrementing a key whose stored text `"abc"`
is not parsable as an integer fails with a query error (the PostgreSQL
`::bigint` cast raises; the `COALESCE(...,0)` only covers NULL, and the
column is NOT NULL) — the stored text is not treated as 0, which would have
returned 5. -/
theorem C4_counterexample :
    Store.increment defaultConfig tblAbc 1 "k" 5
      = (Except.error (Error.Query "invalid input syntax for type bigint"), tblAbc) ∧
    (Store.increment defaultConfig tblAbc 1 "k" 5).1 ≠ Except.ok 5 := by
  decide

/-- Claim C4 (amended): `increment(key, delta)` creates the key with value
`delta` as decimal text when the key is absent; when the key is present and
its stored text parses as a signed 64-bit integer `n` (with `n + delta` in
range), the new value `n + delta` is stored as decimal text and returned,
in the one upsert statement; when the stored text is unparsable, the
statement fails with a query error instead of treating the value as 0. -/
theorem C4_increment_semantics (c : Config) (t : Table) (now : Int)
    (k : String) (delta : Int)
    (hk : Store.validate_key c k = Except.ok ()) :
    (findRow t k = none →
      Store.increment c t now k delta =
        (Except.ok delta,
         t ++ [{ key := k, value := strBytes (toString delta), expires_at := none,
                 created_at := now, updated_at := now }])) ∧
    (∀ r n, findRow t k = some r → parseBigint r.value = some n →
      -(2 ^ 63) ≤ n + delta → n + delta < 2 ^ 63 →
      Store.increment c t now k delta =
        (Except.ok (n + delta),
         t.map (fun r2 => if r2.key == k then
           { r2 with value := strBytes (toString (n + delta)), updated_at := now }
           else r2))) ∧
    (∀ r, findRow t k = some r → parseBigint r.value = none →
      Store.increment c t now k delta =
        (Except.error (Error.Query "invalid input syntax for type bigint"), t)) := by
  refine ⟨?_, ?_, ?_⟩
  · intro hf
    simp only [Store.increment, hk, hf]
  · intro r n hf hp hlo hhi
    simp only [Store.increment, hk, hf, hp]
    rw [if_pos ⟨hlo, hhi⟩]
  · intro r hf hp
    simp only [Store.increment, hk, hf, hp]

/-- Concrete run of C4 (amended): incrementing the stored text `"41"` by 1
stores and returns 42. -/
theorem C4_increment_witness :
    Store.increment defaultConfig tblNum 1 "k" 1
      = (Except.ok ((41 : Int) + 1),
         tblNum.map (fun r2 => if r2.key == "k" then
           { r2 with value := strBytes (toString ((41 : Int) + 1)), updated_at := 1 }
           else r2)) :=
  (C4_increment_semantics defaultConfig tblNum 1 "k" 1 (by decide)).2.1
    { key := "k", value := strBytes "41", expires_at := none,
      created_at := 0, updated_at := 0 }
    41 (by decide) (by decide) (by decide) (by decide)

/-- Claim C3 (counterexample): with the `Disabled` strategy (TTL not
enabled) and an expired row holding exactly the expected value, the claim
predicts the conditional update is not restricted to non-expired rows and
therefore succeeds; in fact the SQL's liveness conjunct applies regardless
of strategy, zero rows match, and the follow-up read (which under
`Disabled` sees the expired row) reports `Mismatch` with the very value
that was expected. -/
theorem C3_counterexample :
    Store.compare_and_swap (configWith TtlCleanupStrategy.Disabled) tblExpired 0 true
        "k" (some (strBytes "v1")) (strBytes "v2")
      = (Except.ok (CasResult.Mismatch (some (strBytes "v1"))), tblExpired) ∧
    (Store.compare_and_swap (configWith TtlCleanupStrategy.Disabled) tblExpired 0 true
        "k" (some (strBytes "v1")) (strBytes "v2")).1
      ≠ Except.ok CasResult.Success := by
  decide

/-- Claim C3 (amended): `compare_and_swap` with `expected = some bytes`
performs a conditional update matched on key, exact current value and
non-expiry — the non-expiry restriction applies under every cleanup
strategy, not only when TTL is enabled; on zero matched rows it issues a
follow-up `get` and reports `NotFound` when that read misses and
`Mismatch{current}` when it hits; and the CAS lifecycle scenario
(insert via CAS-none, mismatch on wrong expected, swap on right expected,
read back the new value) holds from the empty store. -/
theorem C3_cas_semantics :
    (Store.compare_and_swap defaultConfig [] 0 true "k" none (strBytes "v1")
        = (Except.ok CasResult.Success,
           [{ key := "k", value := strBytes "v1", expires_at := none,
              created_at := 0, updated_at := 0 }]) ∧
      Store.compare_and_swap defaultConfig
          [{ key := "k", value := strBytes "v1", expires_at := none,
             created_at := 0, updated_at := 0 }] 1 true
          "k" (some (strBytes "wrong")) (strBytes "v2")
        = (Except.ok (CasResult.Mismatch (some (strBytes "v1"))),
           [{ key := "k", value := strBytes "v1", expires_at := none,
              created_at := 0, updated_at := 0 }]) ∧
      Store.compare_and_swap defaultConfig
          [{ key := "k", value := strBytes "v1", expires_at := none,
             created_at := 0, updated_at := 0 }] 2 true
          "k" (some (strBytes "v1")) (strBytes "v2")
        = (Except.ok CasResult.Success,
           [{ key := "k", value := strBytes "v2", expires_at := none,
              created_at := 0, updated_at := 2 }]) ∧
      (Store.get defaultConfig
          [{ key := "k", value := strBytes "v2", expires_at := none,
             created_at := 0, updated_at := 2 }] 3 true "k").1
        = Except.ok (some (strBytes "v2"))) ∧
    (∀ (c : Config) (t : Table) (now : Int) (k : String) (r : Row) (e : Int)
        (nv : Bytes) (delOk : Bool),
      (t.map Row.key).Nodup → findRow t k = some r →
      r.expires_at = some e → e ≤ now →
      (Store.compare_and_swap c t now delOk k (some r.value) nv).1
        ≠ Except.ok CasResult.Success) ∧
    (∀ (c : Config) (t : Table) (now : Int) (k : String) (exp nv : Bytes)
        (delOk : Bool) (cur : Option Bytes) (t2 : Table),
      Store.validate_key c k = Except.ok () →
      Store.validate_value c nv = Except.ok () →
      t.filter (casMatches k exp now) = [] →
      Store.get c t now delOk k = (Except.ok cur, t2) →
      Store.compare_and_swap c t now delOk k (some exp) nv =
        (Except.ok (match cur with
          | some v => CasResult.Mismatch (some v)
          | none => CasResult.NotFound), t2)) := by
  refine ⟨⟨?_, ?_, ?_, ?_⟩, ?_, ?_⟩
  · decide
  · decide
  · decide
  · decide
  · intro c t now k r e nv delOk hnd hf he hle
    have hlive : rowLive r now = false := rowLive_eq_false_of_expired he hle
    have hfilter : t.filter (casMatches k r.value now) = [] := by
      rw [List.filter_eq_nil_iff]
      intro x hx hp
      unfold casMatches at hp
      rw [Bool.and_eq_true, Bool.and_eq_true] at hp
      have hxk : x.key = k := beq_iff_eq.1 hp.1.1
      have h2 := hp.2
      rw [findRow_unique hnd hf x hx hxk, hlive] at h2
      exact Bool.false_ne_true h2
    cases hvk : Store.validate_key c k with
    | error e2 => simp [Store.compare_and_swap, hvk]
    | ok u =>
      cases u
      cases hvv : Store.validate_value c nv with
      | error e2 => simp [Store.compare_and_swap, hvk, hvv]
      | ok u2 =>
        cases u2
        cases hget : Store.get c t now delOk k with
        | mk res t2 =>
          cases res with
          | error e2 =>
            simp [Store.compare_and_swap, hvk, hvv, hfilter, hget]
          | ok cur =>
            cases cur with
            | some v => simp [Store.compare_and_swap, hvk, hvv, hfilter, hget]
            | none => simp [Store.compare_and_swap, hvk, hvv, hfilter, hget]
  · intro c t now k exp nv delOk cur t2 hvk hvv hfilter hget
    cases cur with
    | some v => simp [Store.compare_and_swap, hvk, hvv, hfilter, hget]
    | none => simp [Store.compare_and_swap, hvk, hvv, hfilter, hget]

/-- Concrete run of C3 (amended): under the `Manual` strategy too, CAS on an
expired row with the matching expected value does not succeed. -/
theorem C3_cas_witness :
    (Store.compare_and_swap (configWith TtlCleanupStrategy.Manual) tblExpired 0 true
        "k" (some (strBytes "v1")) (strBytes "v2")).1
      ≠ Except.ok CasResult.Success :=
  C3_cas_semantics.2.1 (configWith TtlCleanupStrategy.Manual) tblExpired 0 "k"
    { key := "k", value := strBytes "v1", expires_at := some (-1),
      created_at := -10, updated_at := -10 }
    (-1) (strBytes "v2") true (by decide) (by decide) rfl (by decide)

end PgKv
